import Mathlib

/-!
Verification of the duplicate-resolution core of the `ic` repository
(files `oneoff.py` and `immichapi.py`).

The Python code is shallowly embedded: every definition below is a direct
translation of the corresponding Python function, keeping the source names
where Lean allows it.  Assets are the loosely-typed records the code reads
(`id`, `originalPath`, `libraryId`, `visibility`, `duplicateId`,
`exifInfo`); Python dict equality becomes structural equality on `Asset`.
The external catalog mutation `updateAssets(ids, visibility=v)` is modelled
as a `Call` record, and a run of `dedup` is the list of calls it issues.
-/

/-- Exif attributes read by `best_copy` (`oneoff.py` lines 593-600).  The
code reads the keys `fileSizeInbyte`, `exifImageWidth`, `exifImageHeight`
with default 0. -/
structure ExifInfo where
  fileSizeInbyte : Nat
  exifImageWidth : Nat
  exifImageHeight : Nat
deriving DecidableEq

/-- An asset record, with exactly the fields the resolution core reads.
`libraryId` is `none` for upload-pseudo-location assets, `duplicateId` is
`none` for assets with no known duplicate. -/
structure Asset where
  id : String
  originalPath : String
  libraryId : Option String
  visibility : String
  duplicateId : Option String
  exifInfo : ExifInfo
deriving DecidableEq

/-- Python's `path.split("/")` for the single-character separator, on the
character list of the string: `""` splits to `[""]`, `"/a"` to `["", "a"]`,
`"a/b"` to `["a", "b"]`. -/
def splitChars (sep : Char) : List Char → List (List Char)
  | [] => [[]]
  | c :: cs =>
    match splitChars sep cs with
    | [] => [[c]]
    | r :: rs => if c = sep then [] :: r :: rs else (c :: r) :: rs

/-- Python's `sep.join(fields)` for a single-character separator. -/
def joinSep (sep : Char) : List (List Char) → List Char
  | [] => []
  | [x] => x
  | x :: y :: rest => x ++ sep :: joinSep sep (y :: rest)

/-- Translation of `ImmichCli.pfx` (`oneoff.py` lines 583-584):
`"/".join(path.split("/")[:3])`. -/
def pfx (path : String) : String :=
  ⟨joinSep '/' ((splitChars '/' path.data).take 3)⟩

/-- Translation of `ImmichCli.path_prefix_priority_list` (`oneoff.py` lines 653-727),
verbatim. -/
def path_prefix_priority_list : List String :=
  ["/photos/wedding",
   "/photos/undisposed",
   "/photos/sarah",
   "/dropbox/may-mays_and_gifs",
   "/photos/misc",
   "/photos/img",
   "/photos/digital",
   "/photos/2007-01 bink Pictures",
   "/photos/2021-06-15 photos",
   "/photos/kittens",
   "/photos/blackhat_2010",
   "/photos/STScI-01G7ETPF7DVBJAC42JR5N6EQRH.png",
   "/photos/lighthouse",
   "/photos/LIT-18616-03-73",
   "/photos/DEF CON 29 pictures",
   "/photos/rochester",
   "/photos/hawks.png",
   "/photos/ac",
   "/photos/masonlake",
   "/photos/bp98-positron",
   "/photos/headshot candidates",
   "/photos/enhjr0thbday",
   "/photos/van",
   "/photos/osprey.jpg",
   "/photos/win Pictures",
   "/photos/sign",
   "/photos/tord",
   "/photos/space",
   "/photos/home",
   "/photos/shadok-party",
   "/photos/rock",
   "/photos/photos",
   "/photos/OneDrive 2023-10-17",
   "/photos/vacation",
   "/photos/xj",
   "/photos/DEF CON 30 pictures",
   "/photos/office",
   "/photos/nyc",
   "/photos/corner",
   "/photos/calendar photos from sarah November 2024",
   "/photos/f150.jpg",
   "/photos/DC30",
   "/photos/home_infra",
   "/photos/old panasonic card",
   "/photos/spiral_colors.jpg",
   "/photos/dilbert",
   "/photos/olympic",
   "/photos/orcas",
   "/photos/kitties",
   "/photos/PICTURES",
   "/photos/kubernetes.svg",
   "/photos/Holm ink monsters",
   "/photos/Universal 2018",
   "/photos/Max Encompass 2013",
   "/photos/Max Innotab photos 2015",
   "/photos/Max Encompass 2014",
   "/photos/rosen",
   "upload/upload/d8fbf34b-0e56-43dd-87b3-b7774f6b3f3b",
   "/photos/gopro",
   "/photos/disk1 photos",
   "/photos/GooglePhotos",
   "/photos/rescued_from_aperture",
   "/photos/downloaded photo zips",
   "/photos/from iphone",
   "/photos/PhotoStream",
   "/photos/icloud",
   "/photos/photos 2017-08-31",
   "/photos/fuck you apple",
   "/photos/icloud backup",
   "/photos/iphone_photos_20180103 PARTIAL you suck windows",
   "/photos/iphone_photos_partial_backup_20180103",
   "/dropbox/Camera Uploads",
   "/photos/backup"]

/-- Byte size used by `best_copy`:
`asset.get("exifInfo", {}).get("fileSizeInbyte", 0)`. -/
def assetFileSize (a : Asset) : Nat := a.exifInfo.fileSizeInbyte

/-- Pixel area used by `best_copy`: `asset_width * asset_height`. -/
def assetDims (a : Asset) : Nat :=
  a.exifInfo.exifImageWidth * a.exifInfo.exifImageHeight

/-- The running-maximum loop of `best_copy` (`oneoff.py` lines 592-606):
starting from `max = m` and index list `idxs`, scan the values with
enumeration starting at index `k`; a strictly larger value resets the
index list, an equal value appends its index. -/
def maxAndIdxs : Nat → Nat → List Nat → List Nat → Nat × List Nat
  | _, m, idxs, [] => (m, idxs)
  | k, m, idxs, v :: rest =>
    if v > m then maxAndIdxs (k + 1) v [k] rest
    else if v = m then maxAndIdxs (k + 1) m (idxs ++ [k]) rest
    else maxAndIdxs (k + 1) m idxs rest

/-- The `scores` list built by `best_copy` (`oneoff.py` lines 587-610):
`scores = [0] * len(assets)`, then `+2` at each index in `max_size_idx` and
`+8` at each index in `max_dims_idx`. -/
def bc_scores (assets : List Asset) : List Nat :=
  let max_size_idx := (maxAndIdxs 0 0 [] (assets.map assetFileSize)).2
  let max_dims_idx := (maxAndIdxs 0 0 [] (assets.map assetDims)).2
  (List.range assets.length).map (fun i =>
    (if i ∈ max_size_idx then 2 else 0) + (if i ∈ max_dims_idx then 8 else 0))

/-- Translation of `ImmichCli.best_copy` (`oneoff.py` lines 586-621).  Python raises on an
empty input (`max` of an empty sequence); that failure mode is `none`.
`max_score = max(scores)`, `max_scorers` are the assets whose score equals
`max_score`, preferring a `timeline` one, otherwise the first max scorer
(the trailing `return assets[0]` of the source is the final fallback). -/
def best_copy (assets : List Asset) : Option Asset :=
  match assets with
  | [] => none
  | a0 :: _ =>
    let scores := bc_scores assets
    let max_score := scores.foldl Nat.max 0
    let max_scorers := ((assets.zip scores).filter
      (fun p => p.2 = max_score)).map Prod.fst
    if max_scorers.any (fun a => a.visibility = "timeline") then
      max_scorers.find? (fun a => a.visibility = "timeline")
    else
      match max_scorers.head? with
      | some a => some a
      | none => some a0

/-- One `updateAssets(assetIds, visibility=v)` call issued to the catalog
(`immichapi.py` lines 175-183). -/
structure Call where
  ids : List String
  visibility : String
deriving DecidableEq

/-- The `blessed_prefix` loop of `dedup` (`oneoff.py` lines 626-630): the
first entry of the priority list that equals the `pfx` of some member. -/
def blessedPfx (plist : List String) (dup_set : List Asset) : Option String :=
  plist.find? (fun p => dup_set.any (fun ass => pfx ass.originalPath = p))

/-- The Phase-A archive list of `dedup` (`oneoff.py` line 634): ids of
members currently `timeline` whose `pfx` differs from the blessed one. -/
def phaseA_ids (bp : String) (dup_set : List Asset) : List String :=
  (dup_set.filter (fun ass =>
    ass.visibility = "timeline" ∧ pfx ass.originalPath ≠ bp)).map Asset.id

/-- The Phase-A batch of `dedup` (`oneoff.py` lines 634-637): one archive
call when the Phase-A list is non-empty, guarded by `if to_archive`. -/
def phaseA_calls (bp : String) (dup_set : List Asset) : List Call :=
  if phaseA_ids bp dup_set = [] then [] else [⟨phaseA_ids bp dup_set, "archive"⟩]

/-- The `blessed_copies` list of `dedup` (`oneoff.py` line 638): members
whose `pfx` equals the blessed one. -/
def blessed_copies (bp : String) (dup_set : List Asset) : List Asset :=
  dup_set.filter (fun ass => pfx ass.originalPath = bp)

/-- The Phase-B batch of `dedup` (`oneoff.py` lines 639-648): when more
than one blessed copy exists, pick the keeper with `best_copy`, then
`to_archive` is every member that is not (dict-)equal to the keeper, and
both the archive call and the keeper-restore call are guarded by
`if to_archive`.  `best_copy` cannot return `none` here since the blessed
list is non-empty. -/
def phaseB_calls (bp : String) (dup_set : List Asset) : List Call :=
  if 1 < (blessed_copies bp dup_set).length then
    match best_copy (blessed_copies bp dup_set) with
    | none => []
    | some keeper =>
      let to_archive2 := (dup_set.filter (fun ass => ass ≠ keeper)).map Asset.id
      if to_archive2 = [] then []
      else [⟨to_archive2, "archive"⟩, ⟨[keeper.id], "timeline"⟩]
  else []

/-- The per-group body of `dedup` (`oneoff.py` lines 625-648), returning
the `updateAssets` calls it issues for one `dup_set`: nothing when no
priority prefix is represented (`if not blessed_prefix` is Python-falsy,
so an empty-string blessed value is also skipped), otherwise the Phase-A
batch followed by the Phase-B batch. -/
def processGroup (plist : List String) (dup_set : List Asset) : List Call :=
  match blessedPfx plist dup_set with
  | none => []
  | some bp =>
    if bp = "" then []
    else phaseA_calls bp dup_set ++ phaseB_calls bp dup_set

/-- Server-side effect of one `updateAssets` call on a set of assets:
every asset whose id is listed gets the new visibility (`updateVisibility`
of the catalog interface; idempotent per call). -/
def applyCall (dup_set : List Asset) (c : Call) : List Asset :=
  dup_set.map (fun a => if a.id ∈ c.ids then { a with visibility := c.visibility } else a)

/-- Effect of a sequence of calls, applied in issue order. -/
def applyCalls (calls : List Call) (dup_set : List Asset) : List Asset :=
  calls.foldl applyCall dup_set

/-- Derived per-member effect of the Phase-A batch: a visible member
outside the blessed location becomes archived, everyone else is kept. -/
def archiveWrong (bp : String) (a : Asset) : Asset :=
  if a.visibility = "timeline" ∧ pfx a.originalPath ≠ bp then
    { a with visibility := "archive" }
  else a

/-- Derived per-member end state of a group after a Phase B that chose
`keeper`: the keeper becomes visible, every other member archived. -/
def keeperState (keeper a : Asset) : Asset :=
  if a.id = keeper.id then { a with visibility := "timeline" }
  else { a with visibility := "archive" }

/-- Modelled from the spec: the report `{groupsProcessed, archivedCount,
restoredCount, skippedCount}` that §6 says `resolveAll()` returns.  The
source `dedup` builds no such record. -/
structure Report where
  groupsProcessed : Nat
  archivedCount : Nat
  restoredCount : Nat
  skippedCount : Nat
deriving DecidableEq

/-- Translation of `ImmichCli.dedup` (`oneoff.py` lines 623-648) over the fetched list of
duplicate groups: the calls issued, paired with its return value.  The
Python function ends without a `return` statement, i.e. it returns `None`:
no report record is ever produced, hence the second component is `none`. -/
def dedup (dup_sets : List (List Asset)) : List Call × Option Report :=
  ((dup_sets.map (processGroup path_prefix_priority_list)).flatten, none)

/-- The catalog data `find_assets_not_in_library` reads: the libraries
(real ones plus the upload pseudo-library, as `get_all_libraries` keys
them) each with their assets, and the duplicate groups keyed by
`duplicateId` (the `dups_by_duplicateId` cache of `immichapi.py`). -/
structure Catalog where
  libraries : List (String × List Asset)
  dupGroups : List (String × List Asset)
deriving DecidableEq

/-- Translation of `ImmichApi.dups(asset)` (`immichapi.py` lines 43-58): the members of
the asset's duplicate group other than (dict-)equal to the asset itself;
empty when the asset has no `duplicateId` or its group is unknown. -/
def dups (cat : Catalog) (asset : Asset) : List Asset :=
  match asset.duplicateId with
  | none => []
  | some dupid =>
    match cat.dupGroups.find? (fun p => p.1 = dupid) with
    | none => []
    | some p => p.2.filter (fun dup_asset => dup_asset ≠ asset)

/-- Python falsiness of the `targetLibraryId` argument: `None` or `""`. -/
def pyFalsy : Option String → Bool
  | none => true
  | some s => s = ""

/-- Translation of `ImmichCli.find_assets_not_in_library` (`oneoff.py` lines 484-498).
Note the inner membership test of the source compares the duplicate
siblings' `libraryId` against `libraryId` — the library currently being
enumerated — not against `targetLibraryId`. -/
def find_assets_not_in_library (cat : Catalog) (targetLibraryId : Option String) :
    List Asset :=
  if pyFalsy targetLibraryId then []
  else
    ((cat.libraries.filter (fun lib => some lib.1 ≠ targetLibraryId)).map
      (fun lib => lib.2.filter (fun asset =>
        asset.duplicateId = none ∨
        (dups cat asset).all (fun dup_asset => dup_asset.libraryId ≠ some lib.1)))).flatten

/-- Modelled from the spec: "A prefix is derived from an asset's path by
taking its first two path components (e.g. `/photos/wedding`)" — the first
two nonempty slash-separated components, keeping a leading slash when the
path has one.  Used only to compare the spec's wording with `pfx`. -/
def firstTwoComponents (path : String) : String :=
  (if path.data.head? = some '/' then "/" else "") ++
    ⟨joinSep '/' (((splitChars '/' path.data).filter (fun f => f ≠ [])).take 2)⟩

/-- Maximum of a list of naturals as the code computes it (`max(scores)`
for a nonempty list; the 0 seed is neutral on `Nat`). -/
def listMax (l : List Nat) : Nat := l.foldl Nat.max 0

/-- Claim-level score of one candidate (spec §4.3 steps 1-2): +2 for
attaining the maximum byte size, +8 for attaining the maximum pixel area. -/
def specScore (assets : List Asset) (a : Asset) : Nat :=
  (if assetFileSize a = listMax (assets.map assetFileSize) then 2 else 0) +
  (if assetDims a = listMax (assets.map assetDims) then 8 else 0)

/-- The max-scoring candidates in input order, at claim level. -/
def maxScorers (assets : List Asset) : List Asset :=
  assets.filter (fun a => specScore assets a = listMax (assets.map (specScore assets)))

example : pfx ("/photos/wedding/a.jpg") = "/photos/wedding" := by decide
example : pfx ("upload/upload/d8/x.jpg") = "upload/upload/d8" := by decide
example : firstTwoComponents ("/photos/wedding/a.jpg") = "/photos/wedding" := by decide
example : firstTwoComponents ("upload/upload/d8/x.jpg") = "upload/upload" := by decide

/-- Example asset: archived blessed copy, 100 bytes, 20x10 pixels
(the spec's §8 second worked example, candidate A). -/
def exC : Asset := ⟨"C", "/photos/wedding/c.jpg", some "L", "archive", some "d", ⟨100, 20, 10⟩⟩

/-- Example asset: visible blessed copy, 200 bytes, 10x20 pixels
(the spec's §8 second worked example, candidate B). -/
def exD : Asset := ⟨"D", "/photos/wedding/d.jpg", some "L", "timeline", some "d", ⟨200, 10, 20⟩⟩

/-- Example asset: a lone blessed copy that is already archived. -/
def exSolo : Asset := ⟨"S", "/photos/wedding/s.jpg", some "L", "archive", some "d", ⟨0, 0, 0⟩⟩

/-- Example asset: best blessed copy of a three-member group. -/
def exA4 : Asset := ⟨"A", "/photos/wedding/a.jpg", some "L", "timeline", some "d", ⟨500, 30, 20⟩⟩

/-- Example asset: losing blessed copy of a three-member group. -/
def exB4 : Asset := ⟨"B", "/photos/wedding/b.jpg", some "L", "timeline", some "d", ⟨100, 10, 10⟩⟩

/-- Example asset: archived member outside the blessed location. -/
def exOut : Asset := ⟨"O", "/photos/misc/o.jpg", some "L", "archive", some "d", ⟨900, 90, 90⟩⟩

/-- Example asset whose 2-component path is in no priority-list entry. -/
def exU : Asset := ⟨"U", "/nowhere/x/y.jpg", some "L", "timeline", some "d", ⟨0, 0, 0⟩⟩

/-- Example asset stored in library L whose duplicate group reaches library T. -/
def exNL : Asset := ⟨"aL", "/p/q/x.jpg", some "L", "timeline", some "dg", ⟨0, 0, 0⟩⟩

/-- Example asset stored in library T, sibling of `exNL`. -/
def exNT : Asset := ⟨"bT", "/p/q/y.jpg", some "T", "timeline", some "dg", ⟨0, 0, 0⟩⟩

/-- Example asset in library L whose only sibling is also in L. -/
def exM : Asset := ⟨"aM", "/p/q/m.jpg", some "L", "timeline", some "eg", ⟨0, 0, 0⟩⟩

/-- Example asset in library L, sibling of `exM`. -/
def exN : Asset := ⟨"aN", "/p/q/n.jpg", some "L", "timeline", some "eg", ⟨0, 0, 0⟩⟩

/-- Example catalog with a target library T and another library L. -/
def exCat : Catalog :=
  ⟨[("T", [exNT]), ("L", [exNL, exM, exN])], [("dg", [exNL, exNT]), ("eg", [exM, exN])]⟩

/-! Section: Splitting and joining paths -/

theorem splitChars_ne_nil (sep : Char) (l : List Char) : splitChars sep l ≠ [] := by
  cases l with
  | nil => simp [splitChars]
  | cons c cs =>
    simp only [splitChars]
    cases h : splitChars sep cs with
    | nil => simp
    | cons r rs =>
      by_cases hc : c = sep <;> simp [hc]

theorem splitChars_cons_eq (sep c : Char) (cs : List Char) {r : List Char}
    {rs : List (List Char)} (h : splitChars sep cs = r :: rs) :
    splitChars sep (c :: cs) = if c = sep then [] :: r :: rs else (c :: r) :: rs := by
  simp only [splitChars, h]

theorem joinSep_splitChars (sep : Char) (l : List Char) :
    joinSep sep (splitChars sep l) = l := by
  induction l with
  | nil => rfl
  | cons c cs ih =>
    cases h : splitChars sep cs with
    | nil => exact absurd h (splitChars_ne_nil sep cs)
    | cons r rs =>
      rw [h] at ih
      rw [splitChars_cons_eq sep c cs h]
      by_cases hc : c = sep
      · subst hc
        rw [if_pos rfl]
        simpa [joinSep] using ih
      · rw [if_neg hc]
        cases rs with
        | nil =>
          simp only [joinSep] at ih ⊢
          rw [ih]
        | cons y ys =>
          simp only [joinSep, List.cons_append] at ih ⊢
          rw [ih]

/-! Section: Running maxima -/

theorem le_foldl_max (l : List Nat) (m : Nat) : m ≤ l.foldl Nat.max m := by
  induction l generalizing m with
  | nil => simp
  | cons v l ih =>
    calc m ≤ Nat.max m v := Nat.le_max_left m v
    _ ≤ l.foldl Nat.max (Nat.max m v) := ih (Nat.max m v)
    _ = (v :: l).foldl Nat.max m := by simp

theorem mem_le_foldl_max {x : Nat} (l : List Nat) : ∀ m : Nat, x ∈ l → x ≤ l.foldl Nat.max m := by
  induction l with
  | nil => intro m hx; simp at hx
  | cons v l ih =>
    intro m hx
    rcases List.mem_cons.1 hx with rfl | hx
    · calc x ≤ Nat.max m x := Nat.le_max_right m x
      _ ≤ l.foldl Nat.max (Nat.max m x) := le_foldl_max l (Nat.max m x)
      _ = (x :: l).foldl Nat.max m := by simp
    · simpa using ih (Nat.max m v) hx

theorem foldl_max_eq_or_mem (l : List Nat) (m : Nat) :
    l.foldl Nat.max m = m ∨ l.foldl Nat.max m ∈ l := by
  induction l generalizing m with
  | nil => exact Or.inl rfl
  | cons v l ih =>
    rcases ih (Nat.max m v) with h | h
    · rcases Nat.le_total m v with hmv | hmv
      · refine Or.inr (List.mem_cons.2 (Or.inl ?_))
        simp only [List.foldl_cons, h]
        exact Nat.max_eq_right hmv
      · refine Or.inl ?_
        simp only [List.foldl_cons, h]
        exact Nat.max_eq_left hmv
    · exact Or.inr (List.mem_cons.2 (Or.inr (by simpa using h)))

theorem listMax_mem {l : List Nat} (h : l ≠ []) : listMax l ∈ l := by
  rcases foldl_max_eq_or_mem l 0 with h0 | h0
  · obtain ⟨x, t, rfl⟩ := List.exists_cons_of_ne_nil h
    have hx : x ≤ (x :: t).foldl Nat.max 0 := mem_le_foldl_max _ 0 (by simp)
    have : x = 0 := by rw [h0] at hx; omega
    subst this
    rw [listMax, h0]
    simp
  · exact h0

theorem maxAndIdxs_fst (l : List Nat) : ∀ (k m : Nat) (idxs : List Nat),
    (maxAndIdxs k m idxs l).1 = l.foldl Nat.max m := by
  induction l with
  | nil => intro k m idxs; rfl
  | cons v rest ih =>
    intro k m idxs
    simp only [maxAndIdxs, List.foldl_cons]
    by_cases h1 : v > m
    · have h3 : Nat.max m v = v := Nat.max_eq_right (Nat.le_of_lt h1)
      rw [if_pos h1, ih, h3]
    · rw [if_neg h1]
      by_cases h2 : v = m
      · subst h2
        have h3 : Nat.max v v = v := Nat.max_self v
        rw [if_pos rfl, ih, h3]
      · have h3 : Nat.max m v = m := Nat.max_eq_left (by omega)
        rw [if_neg h2, ih, h3]

theorem maxAndIdxs_mem (l : List Nat) : ∀ (k m : Nat) (idxs : List Nat) (j : Nat),
    j ∈ (maxAndIdxs k m idxs l).2 ↔
      (l.foldl Nat.max m = m ∧ j ∈ idxs) ∨
      ∃ i, i < l.length ∧ j = k + i ∧ l.getD i 0 = l.foldl Nat.max m := by
  induction l with
  | nil =>
    intro k m idxs j
    simp [maxAndIdxs]
  | cons v rest ih =>
    intro k m idxs j
    have hle : m ≤ rest.foldl Nat.max m := le_foldl_max rest m
    have hlev : v ≤ rest.foldl Nat.max v := le_foldl_max rest v
    simp only [maxAndIdxs, List.foldl_cons]
    by_cases h1 : v > m
    · have h3 : Nat.max m v = v := Nat.max_eq_right (Nat.le_of_lt h1)
      rw [if_pos h1, h3, ih]
      constructor
      · rintro (⟨hm, hj⟩ | ⟨i, hi, hj, hv⟩)
        · refine Or.inr ⟨0, by simp, by simpa using hj, by simpa using hm.symm⟩
        · exact Or.inr ⟨i + 1, by simp; omega, by omega, by simpa using hv⟩
      · rintro (⟨hm, _⟩ | ⟨i, hi, hj, hv⟩)
        · exact absurd hm (by omega)
        · cases i with
          | zero =>
            refine Or.inl ⟨by simpa using hv.symm, by simpa using hj⟩
          | succ i' =>
            refine Or.inr ⟨i', by simp at hi; omega, by omega, by simpa using hv⟩
    · rw [if_neg h1]
      by_cases h2 : v = m
      · subst h2
        have h3 : Nat.max v v = v := Nat.max_self v
        rw [if_pos rfl, h3, ih]
        constructor
        · rintro (⟨hm, hj⟩ | ⟨i, hi, hj, hv⟩)
          · rcases List.mem_append.1 hj with hj | hj
            · exact Or.inl ⟨hm, hj⟩
            · refine Or.inr ⟨0, by simp, by simpa using hj, by simpa using hm.symm⟩
          · exact Or.inr ⟨i + 1, by simp; omega, by omega, by simpa using hv⟩
        · rintro (⟨hm, hj⟩ | ⟨i, hi, hj, hv⟩)
          · exact Or.inl ⟨hm, List.mem_append.2 (Or.inl hj)⟩
          · cases i with
            | zero =>
              refine Or.inl ⟨by simpa using hv.symm, List.mem_append.2 (Or.inr (by simpa using hj))⟩
            | succ i' =>
              refine Or.inr ⟨i', by simp at hi; omega, by omega, by simpa using hv⟩
      · have h3 : Nat.max m v = m := Nat.max_eq_left (by omega)
        rw [if_neg h2, h3, ih]
        constructor
        · rintro (⟨hm, hj⟩ | ⟨i, hi, hj, hv⟩)
          · exact Or.inl ⟨hm, hj⟩
          · exact Or.inr ⟨i + 1, by simp; omega, by omega, by simpa using hv⟩
        · rintro (⟨hm, hj⟩ | ⟨i, hi, hj, hv⟩)
          · exact Or.inl ⟨hm, hj⟩
          · cases i with
            | zero =>
              have hv' : v = rest.foldl Nat.max m := by simpa using hv
              exact absurd hv' (by omega)
            | succ i' =>
              exact Or.inr ⟨i', by simp at hi; omega, by omega, by simpa using hv⟩

theorem maxAndIdxs_mem_zero (vals : List Nat) (j : Nat) :
    j ∈ (maxAndIdxs 0 0 [] vals).2 ↔ j < vals.length ∧ vals.getD j 0 = listMax vals := by
  rw [maxAndIdxs_mem]
  constructor
  · rintro (⟨_, h⟩ | ⟨i, hi, hj, hv⟩)
    · simp at h
    · have : i = j := by omega
      subst this
      exact ⟨hi, hv⟩
  · rintro ⟨hj, hv⟩
    exact Or.inr ⟨j, hj, by omega, hv⟩

/-! Section: The quality scorer -/

theorem bc_scores_eq (assets : List Asset) :
    bc_scores assets = assets.map (specScore assets) := by
  apply List.ext_getElem
  · simp [bc_scores]
  · intro i h1 h2
    have hlen : i < assets.length := by simpa using h2
    simp only [bc_scores, List.getElem_map, List.getElem_range]
    have hgs : (assets.map assetFileSize).getD i 0 = assetFileSize assets[i] := by
      rw [List.getD_eq_getElem?_getD]
      simp [hlen]
    have hgd : (assets.map assetDims).getD i 0 = assetDims assets[i] := by
      rw [List.getD_eq_getElem?_getD]
      simp [hlen]
    have hs : i ∈ (maxAndIdxs 0 0 [] (assets.map assetFileSize)).2 ↔
        assetFileSize assets[i] = listMax (assets.map assetFileSize) := by
      rw [maxAndIdxs_mem_zero]
      simp [hlen, hgs]
    have hd : i ∈ (maxAndIdxs 0 0 [] (assets.map assetDims)).2 ↔
        assetDims assets[i] = listMax (assets.map assetDims) := by
      rw [maxAndIdxs_mem_zero]
      simp [hlen, hgd]
    simp only [specScore]
    rw [if_congr hs rfl rfl, if_congr hd rfl rfl]

theorem zip_map_filter_map_fst (l : List Asset) (f : Asset → Nat) (M : Nat) :
    ((l.zip (l.map f)).filter (fun p => p.2 = M)).map Prod.fst =
      l.filter (fun a => f a = M) := by
  induction l with
  | nil => rfl
  | cons x t ih =>
    simp only [List.map_cons, List.zip_cons_cons, List.filter_cons]
    by_cases hx : f x = M
    · simp [hx, ih]
    · simp [hx, ih]

theorem maxScorers_ne_nil {assets : List Asset} (h : assets ≠ []) :
    maxScorers assets ≠ [] := by
  have h1 : assets.map (specScore assets) ≠ [] := by simpa using h
  have h2 := listMax_mem h1
  rw [List.mem_map] at h2
  obtain ⟨a, ha, hs⟩ := h2
  intro hcon
  rw [maxScorers, List.filter_eq_nil_iff] at hcon
  exact hcon a ha (by simpa using hs)

theorem best_copy_eq (assets : List Asset) (h : assets ≠ []) :
    best_copy assets =
      if (maxScorers assets).any (fun a => a.visibility = "timeline") then
        (maxScorers assets).find? (fun a => a.visibility = "timeline")
      else (maxScorers assets).head? := by
  obtain ⟨a0, rest, rfl⟩ := List.exists_cons_of_ne_nil h
  have hms : (((a0 :: rest).zip (bc_scores (a0 :: rest))).filter
      (fun p => p.2 = (bc_scores (a0 :: rest)).foldl Nat.max 0)).map Prod.fst =
      maxScorers (a0 :: rest) := by
    rw [bc_scores_eq, zip_map_filter_map_fst]
    rfl
  simp only [best_copy]
  rw [hms]
  obtain ⟨h0, t0, hm⟩ := List.exists_cons_of_ne_nil (maxScorers_ne_nil h)
  rw [hm]
  by_cases hany : ((h0 :: t0).any (fun a => a.visibility = "timeline") : Bool)
  · rw [if_pos hany, if_pos hany]
  · rw [if_neg hany, if_neg hany]
    rfl

theorem best_copy_mem_maxScorers {assets : List Asset} {b : Asset} (h : assets ≠ [])
    (hb : best_copy assets = some b) : b ∈ maxScorers assets := by
  rw [best_copy_eq assets h] at hb
  by_cases hany : ((maxScorers assets).any (fun a => a.visibility = "timeline") : Bool)
  · rw [if_pos hany] at hb
    exact List.mem_of_find?_eq_some hb
  · rw [if_neg hany] at hb
    obtain ⟨h0, t0, hm⟩ := List.exists_cons_of_ne_nil (maxScorers_ne_nil h)
    rw [hm] at hb ⊢
    have : h0 = b := by simpa using hb
    subst this
    simp

theorem best_copy_mem {assets : List Asset} {b : Asset} (h : assets ≠ [])
    (hb : best_copy assets = some b) : b ∈ assets :=
  List.mem_of_mem_filter (best_copy_mem_maxScorers h hb)

theorem best_copy_isSome {assets : List Asset} (h : assets ≠ []) :
    ∃ b, best_copy assets = some b := by
  rw [best_copy_eq assets h]
  by_cases hany : ((maxScorers assets).any (fun a => a.visibility = "timeline") : Bool)
  · rw [if_pos hany]
    have h1 : ∃ x, x ∈ maxScorers assets ∧ (x.visibility = "timeline") := by
      simpa using hany
    have h2 : ((maxScorers assets).find? (fun a => a.visibility = "timeline")).isSome := by
      rw [List.find?_isSome]
      simpa using h1
    obtain ⟨b, hb⟩ := Option.isSome_iff_exists.1 h2
    exact ⟨b, hb⟩
  · rw [if_neg hany]
    obtain ⟨h0, t0, hm⟩ := List.exists_cons_of_ne_nil (maxScorers_ne_nil h)
    rw [hm]
    exact ⟨h0, rfl⟩

theorem maxScorers_score {assets : List Asset} {a : Asset} (ha : a ∈ maxScorers assets) :
    specScore assets a = listMax (assets.map (specScore assets)) := by
  have h1 := List.mem_filter.1 ha
  simpa using h1.2

theorem find?_map_eq_some_of_unique {α β : Type} (F : α → β) (p : β → Bool) (x : α) :
    ∀ l : List α, x ∈ l → p (F x) = true → (∀ a ∈ l, p (F a) = true → a = x) →
      (l.map F).find? p = some (F x) := by
  intro l
  induction l with
  | nil => intro hx; simp at hx
  | cons a t ih =>
    intro hx hpx huniq
    by_cases hpa : p (F a) = true
    · have hax : a = x := huniq a (List.mem_cons_self a t) hpa
      subst hax
      rw [List.map_cons, List.find?_cons_of_pos _ hpa]
    · rw [List.map_cons, List.find?_cons_of_neg _ (by simpa using hpa)]
      have hxt : x ∈ t := by
        rcases List.mem_cons.1 hx with rfl | hxt
        · exact absurd hpx hpa
        · exact hxt
      exact ih hxt hpx (fun b hb hpb => huniq b (List.mem_cons.2 (Or.inr hb)) hpb)

/-! Section: Record-update and id-uniqueness helpers -/

@[simp] theorem setVis_id (a : Asset) (v : String) :
    ({ a with visibility := v } : Asset).id = a.id := rfl

@[simp] theorem setVis_path (a : Asset) (v : String) :
    ({ a with visibility := v } : Asset).originalPath = a.originalPath := rfl

@[simp] theorem setVis_exif (a : Asset) (v : String) :
    ({ a with visibility := v } : Asset).exifInfo = a.exifInfo := rfl

@[simp] theorem setVis_vis (a : Asset) (v : String) :
    ({ a with visibility := v } : Asset).visibility = v := rfl

@[simp] theorem setVis_setVis (a : Asset) (v w : String) :
    ({ ({ a with visibility := v } : Asset) with visibility := w } : Asset) =
      { a with visibility := w } := rfl

theorem setVis_self {a : Asset} {v : String} (h : a.visibility = v) :
    ({ a with visibility := v } : Asset) = a := by
  cases a
  simp_all

theorem archiveWrong_id (bp : String) (a : Asset) : (archiveWrong bp a).id = a.id := by
  rw [archiveWrong]; split <;> rfl

theorem archiveWrong_path (bp : String) (a : Asset) :
    (archiveWrong bp a).originalPath = a.originalPath := by
  rw [archiveWrong]; split <;> rfl

theorem setVis_archiveWrong (bp : String) (a : Asset) (v : String) :
    ({ archiveWrong bp a with visibility := v } : Asset) = { a with visibility := v } := by
  rw [archiveWrong]; split <;> rfl

theorem keeperState_id (keeper a : Asset) : (keeperState keeper a).id = a.id := by
  rw [keeperState]; split <;> rfl

theorem keeperState_path (keeper a : Asset) :
    (keeperState keeper a).originalPath = a.originalPath := by
  rw [keeperState]; split <;> rfl

theorem keeperState_exif (keeper a : Asset) :
    (keeperState keeper a).exifInfo = a.exifInfo := by
  rw [keeperState]; split <;> rfl

theorem id_inj {g : List Asset} (hnd : (g.map Asset.id).Nodup) {a b : Asset}
    (ha : a ∈ g) (hb : b ∈ g) (hid : a.id = b.id) : a = b :=
  List.inj_on_of_nodup_map hnd ha hb hid

theorem mem_filter_map_id {g : List Asset} (hnd : (g.map Asset.id).Nodup)
    (p : Asset → Bool) {a : Asset} (ha : a ∈ g) :
    a.id ∈ (g.filter p).map Asset.id ↔ p a = true := by
  constructor
  · intro h
    rw [List.mem_map] at h
    obtain ⟨b, hb, hid⟩ := h
    have hbg := List.mem_of_mem_filter hb
    have hba : b = a := id_inj hnd hbg ha hid
    subst hba
    exact (List.mem_filter.1 hb).2
  · intro h
    exact List.mem_map.2 ⟨a, List.mem_filter.2 ⟨ha, h⟩, rfl⟩

/-! Section: State of a group after one engine pass -/

theorem applyCalls_append (c1 c2 : List Call) (g : List Asset) :
    applyCalls (c1 ++ c2) g = applyCalls c2 (applyCalls c1 g) := by
  rw [applyCalls, applyCalls, applyCalls, List.foldl_append]

theorem applyCall_eq_map (g : List Asset) (ids : List String) (v : String) :
    applyCall g ⟨ids, v⟩ =
      g.map (fun a => if a.id ∈ ids then { a with visibility := v } else a) := rfl

theorem processGroup_none {plist : List String} {g : List Asset}
    (hbp : blessedPfx plist g = none) : processGroup plist g = [] := by
  simp only [processGroup, hbp]

theorem processGroup_some {plist : List String} {g : List Asset} {bp : String}
    (hbp : blessedPfx plist g = some bp) (hne : bp ≠ "") :
    processGroup plist g = phaseA_calls bp g ++ phaseB_calls bp g := by
  simp only [processGroup, hbp]
  rw [if_neg hne]

theorem phaseB_calls_pos {bp : String} {g : List Asset} {keeper : Asset}
    (hlen : 1 < (blessed_copies bp g).length)
    (hk : best_copy (blessed_copies bp g) = some keeper)
    (hta : (g.filter (fun ass => ass ≠ keeper)).map Asset.id ≠ []) :
    phaseB_calls bp g =
      [⟨(g.filter (fun ass => ass ≠ keeper)).map Asset.id, "archive"⟩,
       ⟨[keeper.id], "timeline"⟩] := by
  simp only [phaseB_calls, if_pos hlen, hk]
  rw [if_neg hta]

theorem phaseB_calls_neg {bp : String} {g : List Asset}
    (hlen : ¬ 1 < (blessed_copies bp g).length) :
    phaseB_calls bp g = [] := by
  rw [phaseB_calls, if_neg hlen]

theorem applyCalls_phaseA {g : List Asset} {bp : String} (hnd : (g.map Asset.id).Nodup) :
    applyCalls (phaseA_calls bp g) g = g.map (archiveWrong bp) := by
  have key : ∀ a ∈ g,
      (if a.id ∈ phaseA_ids bp g then ({ a with visibility := "archive" } : Asset) else a) =
        archiveWrong bp a := by
    intro a ha
    have hmem : a.id ∈ phaseA_ids bp g ↔
        (a.visibility = "timeline" ∧ pfx a.originalPath ≠ bp) := by
      rw [phaseA_ids, mem_filter_map_id hnd _ ha]
      simp
    by_cases hq : a.visibility = "timeline" ∧ pfx a.originalPath ≠ bp
    · rw [if_pos (hmem.2 hq), archiveWrong, if_pos hq]
    · rw [if_neg (fun hc => hq (hmem.1 hc)), archiveWrong, if_neg hq]
  rw [phaseA_calls]
  by_cases hempty : phaseA_ids bp g = []
  · rw [if_pos hempty]
    show g = g.map (archiveWrong bp)
    have hid2 : g.map (archiveWrong bp) = g.map id := by
      apply List.map_congr_left
      intro a ha
      have h2 := key a ha
      rw [hempty] at h2
      simpa using h2.symm
    rw [hid2, List.map_id]
  · rw [if_neg hempty]
    show applyCall g ⟨phaseA_ids bp g, "archive"⟩ = _
    rw [applyCall_eq_map]
    exact List.map_congr_left key

theorem state_after_phaseA {plist : List String} {g : List Asset} {bp : String}
    (hbp : blessedPfx plist g = some bp) (hne : bp ≠ "")
    (hlen : ¬ 1 < (blessed_copies bp g).length) (hnd : (g.map Asset.id).Nodup) :
    applyCalls (processGroup plist g) g = g.map (archiveWrong bp) := by
  rw [processGroup_some hbp hne, phaseB_calls_neg hlen, List.append_nil,
    applyCalls_phaseA hnd]

theorem state_after_phaseB {plist : List String} {g : List Asset} {bp : String}
    {keeper : Asset}
    (hbp : blessedPfx plist g = some bp) (hne : bp ≠ "")
    (hlen : 1 < (blessed_copies bp g).length)
    (hk : best_copy (blessed_copies bp g) = some keeper)
    (hnd : (g.map Asset.id).Nodup) :
    applyCalls (processGroup plist g) g = g.map (keeperState keeper) := by
  have hbne : blessed_copies bp g ≠ [] := by
    intro hc
    rw [hc] at hlen
    simp at hlen
  have hkb : keeper ∈ blessed_copies bp g := best_copy_mem hbne hk
  have hkg : keeper ∈ g := List.mem_of_mem_filter hkb
  have hkpfx : pfx keeper.originalPath = bp := by
    have h1 := (List.mem_filter.1 hkb).2
    simpa using h1
  have hglen : 1 < g.length :=
    lt_of_lt_of_le hlen (List.length_filter_le _ g)
  have hother : ∃ a, a ∈ g ∧ a ≠ keeper := by
    by_contra hc
    push_neg at hc
    rcases g with _ | ⟨x, _ | ⟨y, t⟩⟩
    · simp at hglen
    · simp at hglen
    · have hx : x = keeper := hc x (by simp)
      have hy : y = keeper := hc y (by simp)
      have hxy : x.id ≠ y.id := by
        have h1 : (x.id :: y.id :: t.map Asset.id).Nodup := by simpa using hnd
        intro he
        exact (List.nodup_cons.1 h1).1 (by rw [he]; simp)
      rw [hx, hy] at hxy
      exact hxy rfl
  have hta : (g.filter (fun ass => ass ≠ keeper)).map Asset.id ≠ [] := by
    obtain ⟨a, hag, hane⟩ := hother
    intro hc
    rw [List.map_eq_nil_iff, List.filter_eq_nil_iff] at hc
    exact hc a hag (by simpa using hane)
  have happ : applyCalls (processGroup plist g) g =
      applyCall (applyCall (g.map (archiveWrong bp))
        ⟨(g.filter (fun ass => ass ≠ keeper)).map Asset.id, "archive"⟩)
        ⟨[keeper.id], "timeline"⟩ := by
    rw [processGroup_some hbp hne, applyCalls_append, applyCalls_phaseA hnd,
      phaseB_calls_pos hlen hk hta]
    rfl
  rw [happ, applyCall_eq_map, applyCall_eq_map, List.map_map, List.map_map]
  apply List.map_congr_left
  intro a ha
  simp only [Function.comp]
  by_cases hid : a.id = keeper.id
  · have hak : a = keeper := id_inj hnd ha hkg hid
    subst hak
    have h1 : archiveWrong bp a = a := by
      rw [archiveWrong, if_neg (fun hq => hq.2 hkpfx)]
    rw [h1]
    have h2 : ¬ a.id ∈ (g.filter (fun ass => ass ≠ a)).map Asset.id := by
      rw [mem_filter_map_id hnd _ ha]
      simp
    rw [if_neg h2, if_pos (by simp), keeperState, if_pos rfl]
  · have hane : a ≠ keeper := fun he => hid (by rw [he])
    have h2 : (archiveWrong bp a).id ∈ (g.filter (fun ass => ass ≠ keeper)).map Asset.id := by
      rw [archiveWrong_id, mem_filter_map_id hnd _ ha]
      simpa using hane
    rw [if_pos h2, setVis_archiveWrong]
    have h3 : ¬ ({ a with visibility := "archive" } : Asset).id ∈ [keeper.id] := by
      simpa using hid
    rw [if_neg h3, keeperState, if_neg hid]

/-! Section: Stability of the engine's inputs under visibility rewrites -/

theorem blessedPfx_map {g : List Asset} {F : Asset → Asset}
    (hpath : ∀ a, (F a).originalPath = a.originalPath) (plist : List String) :
    blessedPfx plist (g.map F) = blessedPfx plist g := by
  rw [blessedPfx, blessedPfx]
  congr 1
  funext p
  rw [List.any_map]
  have hq : ((fun ass => decide (pfx ass.originalPath = p)) ∘ F) =
      (fun ass => decide (pfx ass.originalPath = p)) := by
    funext a
    simp [Function.comp, hpath a]
  rw [hq]

theorem blessed_copies_map {g : List Asset} {F : Asset → Asset}
    (hpath : ∀ a, (F a).originalPath = a.originalPath) (bp : String) :
    blessed_copies bp (g.map F) = (blessed_copies bp g).map F := by
  rw [blessed_copies, blessed_copies, List.filter_map]
  congr 1
  apply List.filter_congr
  intro a _
  simp [Function.comp, hpath a]

theorem phaseA_ids_archiveWrong (g : List Asset) (bp : String) :
    phaseA_ids bp (g.map (archiveWrong bp)) = [] := by
  rw [phaseA_ids, List.filter_map]
  simp only [List.map_eq_nil_iff]
  rw [List.filter_eq_nil_iff]
  intro a _
  simp only [Function.comp, archiveWrong]
  split
  · simp
  · rename_i hq
    simpa using hq

theorem phaseA_ids_keeperState {g : List Asset} {keeper : Asset} {bp : String}
    (hnd : (g.map Asset.id).Nodup) (hkg : keeper ∈ g)
    (hkpfx : pfx keeper.originalPath = bp) :
    phaseA_ids bp (g.map (keeperState keeper)) = [] := by
  rw [phaseA_ids, List.filter_map]
  simp only [List.map_eq_nil_iff]
  rw [List.filter_eq_nil_iff]
  intro a ha
  simp only [Function.comp, keeperState]
  split
  · rename_i hid
    have hak : a = keeper := id_inj hnd ha hkg hid
    subst hak
    simp [hkpfx]
  · simp

theorem map_assetFileSize_keeperState (l : List Asset) (keeper : Asset) :
    (l.map (keeperState keeper)).map assetFileSize = l.map assetFileSize := by
  rw [List.map_map]
  apply List.map_congr_left
  intro a _
  simp [Function.comp, assetFileSize, keeperState_exif]

theorem map_assetDims_keeperState (l : List Asset) (keeper : Asset) :
    (l.map (keeperState keeper)).map assetDims = l.map assetDims := by
  rw [List.map_map]
  apply List.map_congr_left
  intro a _
  simp [Function.comp, assetDims, keeperState_exif]

theorem specScore_keeperState (l : List Asset) (keeper a : Asset) :
    specScore (l.map (keeperState keeper)) (keeperState keeper a) = specScore l a := by
  have e1 : assetFileSize (keeperState keeper a) = assetFileSize a := by
    simp [assetFileSize, keeperState_exif]
  have e2 : assetDims (keeperState keeper a) = assetDims a := by
    simp [assetDims, keeperState_exif]
  rw [specScore, specScore, map_assetFileSize_keeperState, map_assetDims_keeperState, e1, e2]

theorem maxScorers_keeperState (l : List Asset) (keeper : Asset) :
    maxScorers (l.map (keeperState keeper)) = (maxScorers l).map (keeperState keeper) := by
  rw [maxScorers, maxScorers, List.filter_map]
  congr 1
  apply List.filter_congr
  intro a _
  have hM : (l.map (keeperState keeper)).map (specScore (l.map (keeperState keeper))) =
      l.map (specScore l) := by
    rw [List.map_map]
    apply List.map_congr_left
    intro b _
    have := specScore_keeperState l keeper b
    simpa [Function.comp] using this
  simp only [Function.comp, specScore_keeperState, hM]

theorem best_copy_keeperState {l : List Asset} {keeper : Asset}
    (hnd : (l.map Asset.id).Nodup) (hlne : l ≠ [])
    (hkm : keeper ∈ maxScorers l) :
    best_copy (l.map (keeperState keeper)) = some (keeperState keeper keeper) := by
  have hlne2 : l.map (keeperState keeper) ≠ [] := by simpa using hlne
  rw [best_copy_eq _ hlne2, maxScorers_keeperState]
  have hkvis : (keeperState keeper keeper).visibility = "timeline" := by
    rw [keeperState, if_pos rfl]
  have hkk : keeperState keeper keeper ∈ (maxScorers l).map (keeperState keeper) :=
    List.mem_map.2 ⟨keeper, hkm, rfl⟩
  have hany : ((maxScorers l).map (keeperState keeper)).any
      (fun a => a.visibility = "timeline") = true := by
    rw [List.any_eq_true]
    exact ⟨_, hkk, by simpa using hkvis⟩
  rw [if_pos hany]
  apply find?_map_eq_some_of_unique (keeperState keeper) _ keeper (maxScorers l) hkm
    (by simpa using hkvis)
  intro a ham hvis
  by_contra hne2
  have hid : a.id = keeper.id := by
    by_contra hid
    rw [keeperState, if_neg hid] at hvis
    simp at hvis
  exact hne2 (id_inj hnd (List.mem_of_mem_filter ham) (List.mem_of_mem_filter hkm) hid)

theorem keeperState_idem (keeper a : Asset) :
    keeperState (keeperState keeper keeper) (keeperState keeper a) = keeperState keeper a := by
  by_cases hid : a.id = keeper.id <;>
    simp [keeperState, hid]

theorem to_archive2_ne_nil {g : List Asset} (keeper : Asset)
    (hnd : (g.map Asset.id).Nodup) (hglen : 1 < g.length) :
    (g.filter (fun ass => ass ≠ keeper)).map Asset.id ≠ [] := by
  have hother : ∃ a, a ∈ g ∧ a ≠ keeper := by
    by_contra hc
    push_neg at hc
    rcases g with _ | ⟨x, _ | ⟨y, t⟩⟩
    · simp at hglen
    · simp at hglen
    · have hx : x = keeper := hc x (by simp)
      have hy : y = keeper := hc y (by simp)
      have hxy : x.id ≠ y.id := by
        have h1 : (x.id :: y.id :: t.map Asset.id).Nodup := by simpa using hnd
        intro he
        exact (List.nodup_cons.1 h1).1 (by rw [he]; simp)
      rw [hx, hy] at hxy
      exact hxy rfl
  obtain ⟨a, hag, hane⟩ := hother
  intro hc
  rw [List.map_eq_nil_iff, List.filter_eq_nil_iff] at hc
  exact hc a hag (by simpa using hane)

theorem filter_id_singleton (keeper : Asset) :
    ∀ g : List Asset, (g.map Asset.id).Nodup → keeper ∈ g →
      g.filter (fun a => a.id = keeper.id) = [keeper] := by
  intro g
  induction g with
  | nil => intro _ hkg; simp at hkg
  | cons x t ih =>
    intro hnd hkg
    have hnd' : (x.id :: t.map Asset.id).Nodup := by simpa using hnd
    have hpair := List.nodup_cons.1 hnd'
    rcases List.mem_cons.1 hkg with rfl | hkt
    · rw [List.filter_cons, if_pos (by simp)]
      have hnilf : t.filter (fun a => a.id = keeper.id) = [] := by
        rw [List.filter_eq_nil_iff]
        intro a hat hcon
        apply hpair.1
        rw [List.mem_map]
        exact ⟨a, hat, by simpa using hcon⟩
      rw [hnilf]
    · have hxk : ¬ (x.id = keeper.id) := by
        intro he
        apply hpair.1
        rw [he, List.mem_map]
        exact ⟨keeper, hkt, rfl⟩
      rw [List.filter_cons, if_neg (by simpa using hxk)]
      exact ih hpair.2 hkt

theorem timeline_unique_rest {g' : List Asset} {k : Asset}
    (h1 : g'.filter (fun a => a.visibility = "timeline") = [k])
    (hbin : ∀ a ∈ g', a.visibility = "timeline" ∨ a.visibility = "archive") :
    ∀ a ∈ g', a ≠ k → a.visibility = "archive" := by
  intro a ha hne
  rcases hbin a ha with hv | hv
  · have h2 : a ∈ g'.filter (fun x => x.visibility = "timeline") :=
      List.mem_filter.2 ⟨ha, by simpa using hv⟩
    rw [h1] at h2
    simp at h2
    exact absurd h2 hne
  · exact hv

theorem blessedPfx_attained {plist : List String} {g : List Asset} {bp : String}
    (hbp : blessedPfx plist g = some bp) : ∃ a ∈ g, pfx a.originalPath = bp := by
  have h1 := List.find?_some hbp
  rw [List.any_eq_true] at h1
  obtain ⟨a, ha, hp⟩ := h1
  exact ⟨a, ha, by simpa using hp⟩

theorem processGroup_some_empty {plist : List String} {g : List Asset}
    (hbp : blessedPfx plist g = some "") : processGroup plist g = [] := by
  simp only [processGroup, hbp]
  simp

/-! Section: Claims C5, C6, C7: the quality scorer -/

/-- Claim C5: for every non-empty candidate sequence, `best_copy` assigns
each candidate the score +2 if it attains the maximum byte size plus +8 if
it attains the maximum pixel area, and returns a candidate whose score
equals the maximum score. -/
theorem C5_scorer_scores (assets : List Asset) (h : assets ≠ []) :
    bc_scores assets = assets.map (specScore assets) ∧
    ∃ b, best_copy assets = some b ∧ b ∈ assets ∧
      specScore assets b = listMax (assets.map (specScore assets)) := by
  refine ⟨bc_scores_eq assets, ?_⟩
  obtain ⟨b, hb⟩ := best_copy_isSome h
  exact ⟨b, hb, best_copy_mem h hb,
    maxScorers_score (best_copy_mem_maxScorers h hb)⟩

/-- Witness for C5 on the spec's §8 example pair. -/
theorem C5_scorer_scores_witness :
    ([exC, exD] : List Asset) ≠ [] ∧
    (bc_scores [exC, exD] = [exC, exD].map (specScore [exC, exD]) ∧
     ∃ b, best_copy [exC, exD] = some b ∧ b ∈ [exC, exD] ∧
       specScore [exC, exD] b = listMax ([exC, exD].map (specScore [exC, exD]))) :=
  ⟨by decide, C5_scorer_scores [exC, exD] (by decide)⟩

/-- Claim C6: if some maximum-scoring candidate is `timeline`, `best_copy`
returns a maximum-scoring `timeline` candidate; otherwise it returns the
first maximum-scoring candidate in input order. -/
theorem C6_scorer_tiebreak (assets : List Asset) (h : assets ≠ []) :
    ((∃ m ∈ maxScorers assets, m.visibility = "timeline") →
      ∃ b, best_copy assets = some b ∧ b ∈ maxScorers assets ∧
        b.visibility = "timeline") ∧
    ((∀ m ∈ maxScorers assets, m.visibility ≠ "timeline") →
      best_copy assets = (maxScorers assets).head?) := by
  constructor
  · rintro ⟨m, hm, hv⟩
    have hany : ((maxScorers assets).any (fun a => a.visibility = "timeline") = true) := by
      rw [List.any_eq_true]
      exact ⟨m, hm, by simpa using hv⟩
    rw [best_copy_eq assets h, if_pos hany]
    have h2 : ((maxScorers assets).find? (fun a => a.visibility = "timeline")).isSome := by
      rw [List.find?_isSome]
      exact ⟨m, hm, by simpa using hv⟩
    obtain ⟨b, hb⟩ := Option.isSome_iff_exists.1 h2
    exact ⟨b, hb, List.mem_of_find?_eq_some hb, by simpa using List.find?_some hb⟩
  · intro hall
    have hany : ¬ ((maxScorers assets).any (fun a => a.visibility = "timeline") = true) := by
      intro hc
      rw [List.any_eq_true] at hc
      obtain ⟨x, hx, hv⟩ := hc
      exact hall x hx (by simpa using hv)
    rw [best_copy_eq assets h, if_neg hany]

/-- Witness for C6 on the spec's §8 example pair (scores 8 and 10, the max
scorer `exD` is `timeline` and is returned). -/
theorem C6_scorer_tiebreak_witness :
    ([exC, exD] : List Asset) ≠ [] ∧
    (((∃ m ∈ maxScorers [exC, exD], m.visibility = "timeline") →
      ∃ b, best_copy [exC, exD] = some b ∧ b ∈ maxScorers [exC, exD] ∧
        b.visibility = "timeline") ∧
     ((∀ m ∈ maxScorers [exC, exD], m.visibility ≠ "timeline") →
      best_copy [exC, exD] = (maxScorers [exC, exD]).head?)) :=
  ⟨by decide, C6_scorer_tiebreak [exC, exD] (by decide)⟩

/-- Claim C7: `best_copy` on a non-empty input always returns a member of
that input. -/
theorem C7_scorer_total (assets : List Asset) (h : assets ≠ []) :
    ∃ b, best_copy assets = some b ∧ b ∈ assets := by
  obtain ⟨b, hb⟩ := best_copy_isSome h
  exact ⟨b, hb, best_copy_mem h hb⟩

/-- Witness for C7. -/
theorem C7_scorer_total_witness :
    ([exC, exD] : List Asset) ≠ [] ∧
    ∃ b, best_copy [exC, exD] = some b ∧ b ∈ [exC, exD] :=
  ⟨by decide, C7_scorer_total [exC, exD] (by decide)⟩

/-! Section: Claim C1: convergence -/

/-- Claim C1 (amended): for a group with a determinable blessed prefix,
distinct member ids and binary visibility, one engine pass leaves exactly
one member visible, at the blessed prefix, with all other members
archived — provided the group has more than one blessed copy, or its
blessed copies are already visible.  (The unamended claim fails when the
single blessed copy was archived: Phase B never restores it.) -/
theorem C1_convergence_amended (plist : List String) (g : List Asset) (bp : String)
    (hbp : blessedPfx plist g = some bp) (hne : bp ≠ "")
    (hnd : (g.map Asset.id).Nodup)
    (hbin : ∀ a ∈ g, a.visibility = "timeline" ∨ a.visibility = "archive")
    (hcase : 1 < (blessed_copies bp g).length ∨
      ∀ a ∈ g, pfx a.originalPath = bp → a.visibility = "timeline") :
    ∃ k, (applyCalls (processGroup plist g) g).filter
        (fun a => a.visibility = "timeline") = [k] ∧
      pfx k.originalPath = bp ∧
      ∀ a ∈ applyCalls (processGroup plist g) g, a ≠ k → a.visibility = "archive" := by
  by_cases hlen : 1 < (blessed_copies bp g).length
  · have hbne : blessed_copies bp g ≠ [] := by
      intro hc
      rw [hc] at hlen
      simp at hlen
    obtain ⟨keeper, hk⟩ := best_copy_isSome hbne
    have hkb : keeper ∈ blessed_copies bp g := best_copy_mem hbne hk
    have hkg : keeper ∈ g := List.mem_of_mem_filter hkb
    have hkpfx : pfx keeper.originalPath = bp := by
      have h1 := (List.mem_filter.1 hkb).2
      simpa using h1
    have hg' := state_after_phaseB hbp hne hlen hk hnd
    rw [hg']
    have hfil : (g.map (keeperState keeper)).filter (fun a => a.visibility = "timeline") =
        [{ keeper with visibility := "timeline" }] := by
      rw [List.filter_map]
      have hcong : g.filter ((fun a => decide (a.visibility = "timeline")) ∘ keeperState keeper) =
          g.filter (fun a => a.id = keeper.id) := by
        apply List.filter_congr
        intro a _
        simp only [Function.comp, keeperState]
        by_cases hid : a.id = keeper.id <;> simp [hid]
      rw [hcong, filter_id_singleton keeper g hnd hkg]
      simp [keeperState]
    refine ⟨{ keeper with visibility := "timeline" }, hfil, by simpa using hkpfx, ?_⟩
    have hbin' : ∀ a ∈ g.map (keeperState keeper),
        a.visibility = "timeline" ∨ a.visibility = "archive" := by
      intro a ha
      rw [List.mem_map] at ha
      obtain ⟨b, _, rfl⟩ := ha
      rw [keeperState]
      split
      · simp
      · simp
    exact timeline_unique_rest hfil hbin'
  · have htl : ∀ a ∈ g, pfx a.originalPath = bp → a.visibility = "timeline" := by
      rcases hcase with h | h
      · exact absurd h hlen
      · exact h
    obtain ⟨a0, ha0g, ha0p⟩ := blessedPfx_attained hbp
    have hbne : blessed_copies bp g ≠ [] := by
      intro hc
      rw [blessed_copies, List.filter_eq_nil_iff] at hc
      exact hc a0 ha0g (by simpa using ha0p)
    have hlen1 : (blessed_copies bp g).length = 1 := by
      have h2 : 0 < (blessed_copies bp g).length := List.length_pos.2 hbne
      omega
    obtain ⟨b0, hb0⟩ := List.length_eq_one.1 hlen1
    have hb0b : b0 ∈ blessed_copies bp g := by
      rw [hb0]
      simp
    have hb0g : b0 ∈ g := List.mem_of_mem_filter hb0b
    have hb0p : pfx b0.originalPath = bp := by
      have h1 := (List.mem_filter.1 hb0b).2
      simpa using h1
    have hb0tl : b0.visibility = "timeline" := htl b0 hb0g hb0p
    have hg' := state_after_phaseA hbp hne hlen hnd
    rw [hg']
    have hAWb0 : archiveWrong bp b0 = b0 := by
      rw [archiveWrong, if_neg (fun hq => hq.2 hb0p)]
    have hfil : (g.map (archiveWrong bp)).filter (fun a => a.visibility = "timeline") =
        [b0] := by
      rw [List.filter_map]
      have hcong : g.filter ((fun a => decide (a.visibility = "timeline")) ∘ archiveWrong bp) =
          g.filter (fun a => decide (a.visibility = "timeline") &&
            decide (pfx a.originalPath = bp)) := by
        apply List.filter_congr
        intro a _
        simp only [Function.comp, archiveWrong]
        by_cases hv : a.visibility = "timeline" <;> by_cases hp : pfx a.originalPath = bp <;>
          simp [hv, hp]
      have hsplit : g.filter (fun a => decide (a.visibility = "timeline") &&
          decide (pfx a.originalPath = bp)) =
          (g.filter (fun a => pfx a.originalPath = bp)).filter
            (fun a => a.visibility = "timeline") :=
        (List.filter_filter _ _).symm
      rw [hcong, hsplit, ← blessed_copies, hb0, List.filter_cons,
        if_pos (by simpa using hb0tl)]
      simp [hAWb0]
    refine ⟨b0, hfil, hb0p, ?_⟩
    have hbin' : ∀ x ∈ g.map (archiveWrong bp),
        x.visibility = "timeline" ∨ x.visibility = "archive" := by
      intro x hx
      rw [List.mem_map] at hx
      obtain ⟨b, hbg, rfl⟩ := hx
      rw [archiveWrong]
      split
      · simp
      · exact hbin b hbg
    exact timeline_unique_rest hfil hbin'

/-- Counterexample to C1 as stated: a group whose only member sits at the
blessed prefix but is archived keeps zero visible members after a run —
Phase B only restores a keeper when more than one blessed copy exists. -/
theorem C1_counterexample :
    blessedPfx path_prefix_priority_list [exSolo] = some ("/photos/wedding") ∧
    ((applyCalls (processGroup path_prefix_priority_list [exSolo]) [exSolo]).filter
      (fun a => a.visibility = "timeline")).length = 0 := by
  decide

/-- Witness for the amended C1 on the two-blessed-copy group. -/
theorem C1_convergence_amended_witness :
    (blessedPfx path_prefix_priority_list [exC, exD] = some ("/photos/wedding") ∧
     ("/photos/wedding" : String) ≠ "" ∧
     (([exC, exD] : List Asset).map Asset.id).Nodup ∧
     (∀ a ∈ ([exC, exD] : List Asset),
        a.visibility = "timeline" ∨ a.visibility = "archive") ∧
     1 < (blessed_copies ("/photos/wedding") [exC, exD]).length) ∧
    (∃ k, (applyCalls (processGroup path_prefix_priority_list [exC, exD]) [exC, exD]).filter
        (fun a => a.visibility = "timeline") = [k] ∧
      pfx k.originalPath = "/photos/wedding" ∧
      ∀ a ∈ applyCalls (processGroup path_prefix_priority_list [exC, exD]) [exC, exD],
        a ≠ k → a.visibility = "archive") :=
  ⟨⟨by decide, by decide, by decide, by decide, by decide⟩,
   C1_convergence_amended path_prefix_priority_list [exC, exD] ("/photos/wedding")
     (by decide) (by decide) (by decide) (by decide) (Or.inl (by decide))⟩

/-! Section: Claim C2: idempotence -/

/-- Claim C2 (amended): a second engine pass over a group never changes any
visibility (the state after two passes equals the state after one), and a
group whose Phase-A list is empty and which has at most one blessed copy
issues no calls at all.  (The unamended claim fails: a group with more than
one blessed copy re-issues its Phase-B calls on every pass.) -/
theorem C2_idempotent_amended (plist : List String) (g : List Asset)
    (hnd : (g.map Asset.id).Nodup) :
    applyCalls (processGroup plist (applyCalls (processGroup plist g) g))
        (applyCalls (processGroup plist g) g) =
      applyCalls (processGroup plist g) g ∧
    (∀ bp, blessedPfx plist g = some bp → phaseA_ids bp g = [] →
      ¬ 1 < (blessed_copies bp g).length → processGroup plist g = []) := by
  constructor
  · cases hbp : blessedPfx plist g with
    | none =>
      have hnil : processGroup plist g = [] := processGroup_none hbp
      rw [hnil]
      show applyCalls (processGroup plist g) g = g
      rw [hnil]
      rfl
    | some bp =>
      by_cases hne : bp = ""
      · subst hne
        have hnil : processGroup plist g = [] := processGroup_some_empty hbp
        rw [hnil]
        show applyCalls (processGroup plist g) g = g
        rw [hnil]
        rfl
      · by_cases hlen : 1 < (blessed_copies bp g).length
        · have hbne : blessed_copies bp g ≠ [] := by
            intro hc
            rw [hc] at hlen
            simp at hlen
          obtain ⟨keeper, hk⟩ := best_copy_isSome hbne
          have hg1 := state_after_phaseB hbp hne hlen hk hnd
          rw [hg1]
          have hpath : ∀ a : Asset, (keeperState keeper a).originalPath = a.originalPath :=
            keeperState_path keeper
          have hbp1 : blessedPfx plist (g.map (keeperState keeper)) = some bp := by
            rw [blessedPfx_map hpath]
            exact hbp
          have hnd1 : ((g.map (keeperState keeper)).map Asset.id).Nodup := by
            rw [List.map_map]
            have hcomp : Asset.id ∘ keeperState keeper = Asset.id := by
              funext a
              simp [Function.comp, keeperState_id]
            rw [hcomp]
            exact hnd
          have hlen1 : 1 < (blessed_copies bp (g.map (keeperState keeper))).length := by
            rw [blessed_copies_map hpath]
            simpa using hlen
          have hknd : ((blessed_copies bp g).map Asset.id).Nodup :=
            List.Nodup.sublist ((List.filter_sublist g).map Asset.id) hnd
          have hkm : keeper ∈ maxScorers (blessed_copies bp g) :=
            best_copy_mem_maxScorers hbne hk
          have hk1 : best_copy (blessed_copies bp (g.map (keeperState keeper))) =
              some (keeperState keeper keeper) := by
            rw [blessed_copies_map hpath]
            exact best_copy_keeperState hknd hbne hkm
          have hg2 := state_after_phaseB hbp1 hne hlen1 hk1 hnd1
          rw [hg2, List.map_map]
          apply List.map_congr_left
          intro a _
          have hida := keeperState_idem keeper a
          simpa [Function.comp] using hida
        · have hg1 := state_after_phaseA hbp hne hlen hnd
          rw [hg1]
          have hpath : ∀ a : Asset, (archiveWrong bp a).originalPath = a.originalPath :=
            archiveWrong_path bp
          have hbp1 : blessedPfx plist (g.map (archiveWrong bp)) = some bp := by
            rw [blessedPfx_map hpath]
            exact hbp
          have hlen1 : ¬ 1 < (blessed_copies bp (g.map (archiveWrong bp))).length := by
            rw [blessed_copies_map hpath]
            simpa using hlen
          have hrun2 : processGroup plist (g.map (archiveWrong bp)) = [] := by
            rw [processGroup_some hbp1 hne, phaseB_calls_neg hlen1, List.append_nil,
              phaseA_calls, if_pos (phaseA_ids_archiveWrong g bp)]
          rw [hrun2]
          rfl
  · intro bp hbp hpa hlen
    by_cases hne : bp = ""
    · subst hne
      exact processGroup_some_empty hbp
    · rw [processGroup_some hbp hne, phaseB_calls_neg hlen, List.append_nil,
        phaseA_calls, if_pos hpa]

/-- Counterexample to C2 as stated: the spec's own §8 example group is
already converged — one run changes nothing — yet the engine issues two
mutation calls on it, and again on every further run. -/
theorem C2_counterexample :
    applyCalls (processGroup path_prefix_priority_list [exC, exD]) [exC, exD] = [exC, exD] ∧
    processGroup path_prefix_priority_list
      (applyCalls (processGroup path_prefix_priority_list [exC, exD]) [exC, exD]) ≠ [] := by
  decide

/-- Witness for the amended C2. -/
theorem C2_idempotent_amended_witness :
    (([exC, exD] : List Asset).map Asset.id).Nodup ∧
    (applyCalls (processGroup path_prefix_priority_list
        (applyCalls (processGroup path_prefix_priority_list [exC, exD]) [exC, exD]))
        (applyCalls (processGroup path_prefix_priority_list [exC, exD]) [exC, exD]) =
      applyCalls (processGroup path_prefix_priority_list [exC, exD]) [exC, exD] ∧
     (∀ bp, blessedPfx path_prefix_priority_list [exC, exD] = some bp →
        phaseA_ids bp [exC, exD] = [] →
        ¬ 1 < (blessed_copies bp [exC, exD]).length →
        processGroup path_prefix_priority_list [exC, exD] = [])) :=
  ⟨by decide, C2_idempotent_amended path_prefix_priority_list [exC, exD] (by decide)⟩

/-! Section: Claim C4: the Phase-B schedule -/

/-- Claim C4 (amended): with more than one blessed copy, Phase B schedules
for archival every group member other than the keeper — blessed or not —
and then unconditionally schedules the keeper to `timeline`.  (The
unamended claim said only the other blessed copies are scheduled.) -/
theorem C4_phaseB_amended (plist : List String) (g : List Asset) (bp : String)
    (hbp : blessedPfx plist g = some bp) (hne : bp ≠ "")
    (hnd : (g.map Asset.id).Nodup)
    (hlen : 1 < (blessed_copies bp g).length) :
    ∃ keeper, best_copy (blessed_copies bp g) = some keeper ∧
      keeper ∈ blessed_copies bp g ∧
      processGroup plist g = phaseA_calls bp g ++
        [⟨(g.filter (fun ass => ass ≠ keeper)).map Asset.id, "archive"⟩,
         ⟨[keeper.id], "timeline"⟩] ∧
      ∀ i, i ∈ (g.filter (fun ass => ass ≠ keeper)).map Asset.id ↔
        ∃ a, a ∈ g ∧ a ≠ keeper ∧ a.id = i := by
  have hbne : blessed_copies bp g ≠ [] := by
    intro hc
    rw [hc] at hlen
    simp at hlen
  obtain ⟨keeper, hk⟩ := best_copy_isSome hbne
  have hta := to_archive2_ne_nil keeper hnd
    (lt_of_lt_of_le hlen (List.length_filter_le _ g))
  refine ⟨keeper, hk, best_copy_mem hbne hk, ?_, ?_⟩
  · rw [processGroup_some hbp hne, phaseB_calls_pos hlen hk hta]
  · intro i
    constructor
    · intro h
      rw [List.mem_map] at h
      obtain ⟨a, haf, hai⟩ := h
      have h2 := List.mem_filter.1 haf
      exact ⟨a, h2.1, by simpa using h2.2, hai⟩
    · rintro ⟨a, hag, hane, hai⟩
      rw [List.mem_map]
      exact ⟨a, List.mem_filter.2 ⟨hag, by simpa using hane⟩, hai⟩

/-- Counterexample to C4 as stated: the archived member `exOut` lies
outside the blessed prefix, yet its id is in the Phase-B archive batch —
the scheduled set is not just "blessed copies other than the keeper". -/
theorem C4_counterexample :
    processGroup path_prefix_priority_list [exA4, exB4, exOut] =
      [⟨["B", "O"], "archive"⟩, ⟨["A"], "timeline"⟩] ∧
    pfx exOut.originalPath ≠ "/photos/wedding" ∧
    blessedPfx path_prefix_priority_list [exA4, exB4, exOut] =
      some ("/photos/wedding") := by
  decide

/-- Witness for the amended C4. -/
theorem C4_phaseB_amended_witness :
    (blessedPfx path_prefix_priority_list [exA4, exB4, exOut] = some ("/photos/wedding") ∧
     ("/photos/wedding" : String) ≠ "" ∧
     (([exA4, exB4, exOut] : List Asset).map Asset.id).Nodup ∧
     1 < (blessed_copies ("/photos/wedding") [exA4, exB4, exOut]).length) ∧
    (∃ keeper, best_copy (blessed_copies ("/photos/wedding") [exA4, exB4, exOut]) =
        some keeper ∧
      keeper ∈ blessed_copies ("/photos/wedding") [exA4, exB4, exOut] ∧
      processGroup path_prefix_priority_list [exA4, exB4, exOut] =
        phaseA_calls ("/photos/wedding") [exA4, exB4, exOut] ++
        [⟨(([exA4, exB4, exOut] : List Asset).filter
            (fun ass => ass ≠ keeper)).map Asset.id, "archive"⟩,
         ⟨[keeper.id], "timeline"⟩] ∧
      ∀ i, i ∈ (([exA4, exB4, exOut] : List Asset).filter
          (fun ass => ass ≠ keeper)).map Asset.id ↔
        ∃ a, a ∈ ([exA4, exB4, exOut] : List Asset) ∧ a ≠ keeper ∧ a.id = i) :=
  ⟨⟨by decide, by decide, by decide, by decide⟩,
   C4_phaseB_amended path_prefix_priority_list [exA4, exB4, exOut] ("/photos/wedding")
     (by decide) (by decide) (by decide) (by decide)⟩

/-! Section: Claim C9: unlisted-prefix groups -/

/-- Claim C9 (amended): a group none of whose members' prefixes appear in
the priority list contributes no mutation calls, and `dedup` behaves on
the remaining groups exactly as if the group were absent.  The Python
`dedup` ends without a `return`, so it yields `None`: no report exists and
no `skippedCount` is maintained. -/
theorem C9_skip_amended (g : List Asset) (gs : List (List Asset))
    (h : ∀ p ∈ path_prefix_priority_list, ∀ a ∈ g, pfx a.originalPath ≠ p) :
    processGroup path_prefix_priority_list g = [] ∧
    dedup (g :: gs) = dedup gs := by
  have hbp : blessedPfx path_prefix_priority_list g = none := by
    rw [blessedPfx, List.find?_eq_none]
    intro p hp hc
    rw [List.any_eq_true] at hc
    obtain ⟨a, ha, hpa⟩ := hc
    exact h p hp a ha (by simpa using hpa)
  have h1 : processGroup path_prefix_priority_list g = [] := processGroup_none hbp
  refine ⟨h1, ?_⟩
  simp [dedup, h1]

/-- Counterexample to C9 as stated: on an unlisted-prefix group `dedup`
issues no calls but returns `None` — there is no report record whose
`skippedCount` field could have been incremented. -/
theorem C9_counterexample :
    (dedup [[exU]]).1 = [] ∧ (dedup [[exU]]).2 = none ∧
    ¬ ∃ r : Report, (dedup [[exU]]).2 = some r ∧ r.skippedCount = 1 := by
  refine ⟨by decide, rfl, ?_⟩
  rintro ⟨r, hr, _⟩
  simp [dedup] at hr

/-- Witness for the amended C9. -/
theorem C9_skip_amended_witness :
    (∀ p ∈ path_prefix_priority_list, ∀ a ∈ ([exU] : List Asset),
      pfx a.originalPath ≠ p) ∧
    (processGroup path_prefix_priority_list [exU] = [] ∧
     dedup ([exU] :: [[exC, exD]]) = dedup [[exC, exD]]) :=
  ⟨by decide, C9_skip_amended [exU] [[exC, exD]] (by decide)⟩

/-! Section: Claim C10: falsy target library -/

/-- Claim C10: for a falsy target library id (Python `None` or the empty
string) `find_assets_not_in_library` returns the empty list immediately,
whatever the catalog holds — the guard precedes any enumeration. -/
theorem C10_falsy_target (cat : Catalog) (t : Option String)
    (h : pyFalsy t = true) : find_assets_not_in_library cat t = [] := by
  rw [find_assets_not_in_library, if_pos h]

/-- Witness for C10, on the example catalog with both falsy forms. -/
theorem C10_falsy_target_witness :
    (pyFalsy none = true ∧ pyFalsy (some "") = true) ∧
    find_assets_not_in_library exCat none = [] ∧
    find_assets_not_in_library exCat (some "") = [] :=
  ⟨⟨rfl, by decide⟩, C10_falsy_target exCat none rfl,
   C10_falsy_target exCat (some "") (by decide)⟩

/-! Section: Claim C3: the presence classifier -/

/-- Claim C3 is contradicted by the code (a slip): the sibling test of
`find_assets_not_in_library` compares each duplicate sibling's `libraryId`
with `libraryId` — the library currently being enumerated — instead of
`targetLibraryId`.  On `exCat` with target `T`: `exNL` is returned even
though a sibling lives in `T`, and `exM` is omitted even though none of
its siblings lives in `T`. -/
theorem C3_code_divergence :
    find_assets_not_in_library exCat (some ("T")) = [exNL] ∧
    (∃ s ∈ dups exCat exNL, s.libraryId = some ("T")) ∧
    (∀ s ∈ dups exCat exM, s.libraryId ≠ some ("T")) ∧
    exM ∉ find_assets_not_in_library exCat (some ("T")) := by
  decide

/-! Section: Claim C8: the path prefix -/

/-- Counterexample to C8 as stated: on a relative path (the priority list
itself contains the relative entry
`upload/upload/d8fbf34b-0e56-43dd-87b3-b7774f6b3f3b`), `pfx` keeps the
first three slash-separated fields, which is three path components, not
two. -/
theorem C8_counterexample :
    pfx ("upload/upload/d8fbf34b/x.jpg") = "upload/upload/d8fbf34b" ∧
    firstTwoComponents ("upload/upload/d8fbf34b/x.jpg") = "upload/upload" ∧
    ("upload/upload/d8fbf34b" : String) ≠ "upload/upload" := by
  decide

/-- Claim C8 (amended): `pfx` joins the first three slash-separated fields
of the path; for a well-formed absolute path — leading slash, first two
components nonempty — this equals the spec's two-component prefix.  The
blessed prefix the engine ranks with is always the `pfx` of some member. -/
theorem C8_pfx_amended (p : String) (f1 f2 : List Char) (rest : List (List Char))
    (hsplit : splitChars '/' p.data = [] :: f1 :: f2 :: rest)
    (h1 : f1 ≠ []) (h2 : f2 ≠ []) :
    pfx p = firstTwoComponents p ∧
    (∀ plist g bp, blessedPfx plist g = some bp → ∃ a ∈ g, pfx a.originalPath = bp) := by
  constructor
  · have hhead : p.data.head? = some '/' := by
      have hrt := joinSep_splitChars '/' p.data
      rw [hsplit] at hrt
      simp only [joinSep, List.nil_append] at hrt
      rw [← hrt]
      rfl
    have htake3 : (splitChars '/' p.data).take 3 = [[], f1, f2] := by
      rw [hsplit]
      rfl
    have hfilter : ((splitChars '/' p.data).filter (fun f => f ≠ [])).take 2 = [f1, f2] := by
      rw [hsplit]
      simp [List.filter_cons, h1, h2]
    have hL : pfx p = ⟨'/' :: (f1 ++ '/' :: f2)⟩ := by
      rw [pfx, htake3]
      rfl
    have hR : firstTwoComponents p = ⟨'/' :: (f1 ++ '/' :: f2)⟩ := by
      rw [firstTwoComponents]
      simp only [hhead, hfilter]
      apply String.ext
      simp [joinSep]
    rw [hL, hR]
  · intro plist g bp hbp
    exact blessedPfx_attained hbp

/-- Witness for the amended C8, on the spec's own example path. -/
theorem C8_pfx_amended_witness :
    (splitChars '/' ("/photos/wedding/a.jpg" : String).data =
      [] :: ("photos" : String).data :: ("wedding" : String).data ::
        [("a.jpg" : String).data] ∧
     ("photos" : String).data ≠ [] ∧ ("wedding" : String).data ≠ []) ∧
    (pfx ("/photos/wedding/a.jpg") = firstTwoComponents ("/photos/wedding/a.jpg") ∧
     (∀ plist g bp, blessedPfx plist g = some bp →
        ∃ a ∈ g, pfx a.originalPath = bp)) :=
  ⟨⟨by decide, by decide, by decide⟩,
   C8_pfx_amended ("/photos/wedding/a.jpg") (("photos" : String).data)
     (("wedding" : String).data) [("a.jpg" : String).data]
     (by decide) (by decide) (by decide)⟩

